import Mathlib

/-!
Shallow embedding of the anomaly-detection-and-correction engine of the
qc_temperatures repository (src/qc_batch/thermo_qc.py, src/qc_batch/stat_qc.py,
src/qc_batch/workflow.py, src/qc_batch/io_manager.py,
src/qc_batch_temperature.py).

Modelling conventions:
* A daily series (pandas DataFrame with columns fecha/valor) is a list of
  (date, value) pairs; dates are naturals, values are exact rationals.
  The data model's invariant (spec §3) is that no two rows share a date.
* The missing-value sentinel is the rational -99.
* A value that pandas would hold as NaN after an outer join (date absent
  from one of the merged series) is represented by Option: none = absent.
* Python floats are modelled by ℚ (exact arithmetic).
-/

namespace QC

abbrev Series := List (ℕ × ℚ)

/-- Value of a series at a date: none when the date has no row
(pandas: the outer-joined cell is NaN). -/
def getVal (s : Series) (d : ℕ) : Option ℚ :=
  (s.find? (fun p => p.1 == d)).map Prod.snd

/-- The joined cell `row.get(col, -99)` of `detect_thermal_inconsistencies`:
a wholly absent dataframe contributes the -99 default, an absent date
contributes NaN (none). -/
def jVal (os : Option Series) (d : ℕ) : Option ℚ :=
  match os with
  | none => some (-99)
  | some s => getVal s d

def seriesDates (os : Option Series) : List ℕ :=
  match os with
  | none => []
  | some s => s.map Prod.fst

/-- Dates of the outer join of the three series (sorted, each date once;
the source merges dataframes whose date columns are unique per the data
model's invariant). -/
def mergedDates (t1 t2 t3 : Option Series) : List ℕ :=
  List.insertionSort (· ≤ ·) ((seriesDates t1 ++ seriesDates t2 ++ seriesDates t3).dedup)

/-- `validos[k]` of the source: the cell holds a value that is neither
NaN nor the -99 sentinel. -/
def validB (x : Option ℚ) : Bool :=
  match x with
  | none => false
  | some v => v != -99

/-- `validos[a] and validos[b] and r a b` for one branch of the
classification chain in `detect_thermal_inconsistencies`. -/
def bothValidAnd (x y : Option ℚ) (r : ℚ → ℚ → Bool) : Bool :=
  match x, y with
  | some a, some b => a != -99 && b != -99 && r a b
  | _, _ => false

/-- The per-date classification chain of `detect_thermal_inconsistencies`
(src/qc_batch/thermo_qc.py lines 249-273), first match wins. -/
def classify (tn tm tx : Option ℚ) : Option String :=
  if bothValidAnd tn tx (fun a b => a == b) then some "tmin==tmax"
  else if bothValidAnd tm tx (fun a b => a == b) then some "tmean==tmax"
  else if bothValidAnd tm tn (fun a b => a == b) then some "tmean==tmin"
  else if bothValidAnd tn tx (fun a b => b < a) then some "tmax<tmin"
  else if bothValidAnd tm tx (fun a b => b < a) then some "tmean>tmax"
  else if bothValidAnd tm tn (fun a b => a < b) then some "tmean<tmin"
  else none

/-- `detect_thermal_inconsistencies` — the reported (date, kind) pairs.
The rows-with-every-cell-missing guard and the `num_validos == 0` guard of
the source are subsumed: `classify` returns none on such rows. -/
def detect_thermal_inconsistencies (t1 t2 t3 : Option Series) : List (ℕ × String) :=
  (mergedDates t1 t2 t3).filterMap (fun d =>
    (classify (jVal t1 d) (jVal t2 d) (jVal t3 d)).map (fun k => (d, k)))

/-! ### Correction engine (`apply_thermal_correction`, thermo_qc.py lines 295-515) -/

structure Triplet where
  tmin : Option Series
  tmean : Option Series
  tmax : Option Series
deriving DecidableEq, Repr

/-- Row-materialization step of `apply_thermal_correction`: a None
dataframe becomes a single -99 row, a present dataframe without the date
gets a -99 row appended and is re-sorted by date (the source sorts only
in this append case). -/
def ensureRow (os : Option Series) (d : ℕ) : Series :=
  match os with
  | none => [(d, -99)]
  | some s =>
    if s.any (fun p => p.1 == d) then s
    else List.insertionSort (fun p q => p.1 ≤ q.1) (s ++ [(d, -99)])

/-- `_set_val`: overwrite the value at every row carrying the date, else
append a new row. -/
def setVal (s : Series) (d : ℕ) (v : ℚ) : Series :=
  if s.any (fun p => p.1 == d) then
    s.map (fun p => if p.1 == d then (p.1, v) else p)
  else s ++ [(d, v)]

/-- Final normalization step of `apply_thermal_correction`: re-sort each
series by date (`sort_values("fecha")`, stable). -/
def sortSeries (s : Series) : Series :=
  List.insertionSort (fun p q => p.1 ≤ q.1) s

/-- `cur["tmean"] > cur["tmax"]`-style guard: comparisons against a
possibly-None current value are only taken when both are present. -/
def oGT (x y : Option ℚ) : Bool :=
  match x, y with
  | some a, some b => b < a
  | _, _ => false

def oLT (x y : Option ℚ) : Bool :=
  match x, y with
  | some a, some b => a < b
  | _, _ => false

/-- The assignment table of the reorder action (action 'r'): positions are
(tmin, tmean, tmax); a none is skipped by the final assignment loop
(`if assign[k] is not None`). `cur3` is the current tmax value. -/
def reorderAssign (cur1 cur2 cur3 : Option ℚ) : Option ℚ × Option ℚ × Option ℚ :=
  let vals := ([cur1, cur2, cur3].filterMap id).filter (fun v => v != -99)
  if vals.length ≥ 2 then
    let vs := List.insertionSort (· ≤ ·) vals
    if vs.length == 2 then
      (some (vs.getD 0 0), some (vs.getD 1 0),
        match cur3 with
        | some c => if c != -99 then some c else some (vs.getD 1 0)
        | none => none)
    else
      (some (vs.getD 0 0), some (vs.getD 1 0), some (vs.getD 2 0))
  else (none, none, none)

def applyAssign (s : Series) (d : ℕ) (o : Option ℚ) : Series :=
  match o with
  | none => s
  | some v => setVal s d v

/-- `apply_thermal_correction` (thermo_qc.py lines 295-515), restricted to
its effect on the triplet (the audit-journal append is not needed by the
claims).  The manual-edit action 'e' takes its already-parsed console
replacements as the `edits` argument. -/
def apply_thermal_correction (action : String) (d : ℕ) (t : Triplet)
    (edits : Option ℚ × Option ℚ × Option ℚ) : Triplet :=
  let s1 := ensureRow t.tmin d
  let s2 := ensureRow t.tmean d
  let s3 := ensureRow t.tmax d
  let cur1 := getVal s1 d
  let cur2 := getVal s2 d
  let cur3 := getVal s3 d
  let r :=
    if action = "m" then (s1, s2, s3)
    else if action = "i" then
      match cur1, cur3 with
      | some a, some c => (setVal s1 d c, s2, setVal s3 d a)
      | _, _ => (s1, s2, s3)
    else if action = "t" then (s1, setVal s2 d (-99), s3)
    else if action = "x" then
      if oGT cur2 cur3 then (s1, setVal s2 d (-99), setVal s3 d (-99))
      else if oLT cur2 cur1 then (setVal s1 d (-99), setVal s2 d (-99), s3)
      else (s1, setVal s2 d (-99), s3)
    else if action = "e" then
      (applyAssign s1 d edits.1, applyAssign s2 d edits.2.1, applyAssign s3 d edits.2.2)
    else if action = "s" then
      (setVal s1 d (-99), setVal s2 d (-99), setVal s3 d (-99))
    else if action = "u" then (s1, s2, setVal s3 d (-99))
    else if action = "l" then (setVal s1 d (-99), s2, s3)
    else if action = "r" then
      let a := reorderAssign cur1 cur2 cur3
      (applyAssign s1 d a.1, applyAssign s2 d a.2.1, applyAssign s3 d a.2.2)
    else (s1, s2, s3)
  ⟨some (sortSeries r.1), some (sortSeries r.2.1), some (sortSeries r.2.2)⟩

/-! ### Statistical QC (`stat_qc.py`) -/

/-- `np.nanpercentile(xs, q)` with the default linear interpolation,
`0 ≤ q ≤ 100`, over exact rationals. -/
def percentileLinear (xs : List ℚ) (q : ℚ) : ℚ :=
  let s := List.insertionSort (· ≤ ·) xs
  let n := s.length
  let h : ℚ := ((n : ℚ) - 1) * q / 100
  let i : ℕ := ⌊h⌋.toNat
  let lo := s.getD i 0
  let hi := s.getD (min (i + 1) (n - 1)) 0
  lo + (h - (i : ℚ)) * (hi - lo)

/-- Result record of `compute_bounds`; a none field is the NaN of the
empty-sample branch. -/
structure Bounds where
  p_low : Option ℚ
  p_high : Option ℚ
  iqr : Option ℚ
  lim_inf : Option ℚ
  lim_sup : Option ℚ
deriving DecidableEq, Repr

/-- `compute_bounds` (stat_qc.py lines 18-62). -/
def compute_bounds (xs : List ℚ) (lower_p upper_p k : ℚ) : Bounds :=
  if xs.length = 0 then ⟨none, none, none, none, none⟩
  else
    let p_low := percentileLinear xs (lower_p * 100)
    let p_high := percentileLinear xs (upper_p * 100)
    let iqr := p_high - p_low
    ⟨some p_low, some p_high, some iqr, some (p_low - k * iqr), some (p_high + k * iqr)⟩

/-- One record of the `single_changes` audit journal, restricted to the
fields `get_validated_outliers` reads. -/
structure AuditEntry where
  estacion : String
  fecha : ℕ
  accion : String
deriving DecidableEq, Repr

/-- `get_validated_outliers` (stat_qc.py lines 65-83): the (station, date)
keys recorded with action 'm'. -/
def get_validated_outliers (log : List AuditEntry) : List (String × ℕ) :=
  (log.filter (fun e => e.accion == "m")).map (fun e => (e.estacion, e.fecha))

/-- `detect_outliers` (stat_qc.py lines 86-140).  `df` is the series as
(date, value) rows; the returned pairs are (positional index, value). -/
def detect_outliers (df : List (ℕ × ℚ)) (bounds : Bounds) (log : List AuditEntry)
    (estacion : String) : List (ℕ × ℚ) :=
  if df.isEmpty then []
  else
    match bounds.lim_inf, bounds.lim_sup with
    | some li, some ls =>
      if ls - li ≤ 1 / 1000000 then []
      else
        let validated := get_validated_outliers log
        df.enum.filterMap (fun p =>
          let i := p.1
          let fecha := p.2.1
          let v := p.2.2
          if v == -99 then none
          else if (estacion, fecha) ∈ validated then none
          else if v < li || ls < v then some (i, v)
          else none)
    | _, _ => []

/-! ### Loading (`io_manager.read_series`, `qc_batch_temperature.normalize_missing_values`) -/

/-- `read_series` (io_manager.py lines 60-85) after CSV parsing: a raw row
is (date-parse result, numeric-parse result); rows whose date failed to
parse are dropped, values (NaN included) pass through unchanged. -/
def read_series (rows : List (Option ℕ × Option ℚ)) : List (ℕ × Option ℚ) :=
  rows.filterMap (fun r =>
    match r.1 with
    | none => none
    | some d => some (d, r.2))

/-- `normalize_missing_values` (qc_batch_temperature.py lines 131-135):
replace the decimal spellings -99.0, -99.9, -99.00 by -99 and fill NaN
with -99.  Over ℚ, -99.0 and -99.00 are already -99. -/
def normalize_missing_values (v : Option ℚ) : ℚ :=
  match v with
  | none => -99
  | some x => if x = -99 ∨ x = -999 / 10 then -99 else x

/-! ### Thermal review loop (`workflow.process_file`, workflow.py lines 441-665) -/

/-- `_safe_get` plus fillna(-99) of the revalidation block (workflow.py
lines 536-547): a None or empty dataframe contributes the -99 default
(its column is absent from the merge), an absent date contributes -99. -/
def safeGet (os : Option Series) (d : ℕ) : ℚ :=
  match os with
  | none => -99
  | some s => if s.isEmpty then -99 else ((s.find? (fun p => p.1 == d)).map Prod.snd).getD (-99)

/-- `hay_inconsistencia_real` (workflow.py lines 549-576): at least two
valid values and one of the six inconsistency conditions. -/
def hayInconsistenciaReal (t : Triplet) (d : ℕ) : Bool :=
  let a := safeGet t.tmin d
  let b := safeGet t.tmean d
  let c := safeGet t.tmax d
  let nv := (if a != -99 then 1 else 0) + (if b != -99 then 1 else 0)
    + (if c != -99 then 1 else 0)
  nv ≥ 2 &&
    ((a != -99 && c != -99 && c < a) ||
     (b != -99 && c != -99 && c < b) ||
     (b != -99 && a != -99 && b < a) ||
     (b != -99 && a != -99 && b == a) ||
     (b != -99 && c != -99 && b == c) ||
     (a != -99 && c != -99 && a == c))

def detectT (t : Triplet) : List (ℕ × String) :=
  detect_thermal_inconsistencies t.tmin t.tmean t.tmax

structure LoopState where
  trip : Triplet
  pending : List (ℕ × String)
deriving DecidableEq, Repr

/-- One pass of the dynamic thermal-review while-loop (workflow.py lines
442-665).  `act` is the reviewer decision for a presented (date, kind);
stateless I/O (plots, prompts, tmp snapshots) is dropped.  When the head
inconsistency is no longer real it is recomputed away; otherwise the
correction is applied, inconsistencies are re-detected, and if the same
(date, kind) persists every entry at that date is filtered from the
re-detected list (lines 645-655). -/
def reviewStep (act : ℕ → String → String) (st : LoopState) : LoopState :=
  match st.pending with
  | [] => st
  | inc :: _ =>
    let d := inc.1
    let tipo := inc.2
    if hayInconsistenciaReal st.trip d = false then
      { trip := st.trip, pending := detectT st.trip }
    else
      let t' := apply_thermal_correction (act d tipo) d st.trip (none, none, none)
      let newInc := detectT t'
      if (d, tipo) ∈ newInc then
        { trip := t', pending := newInc.filter (fun p => p.1 != d) }
      else
        { trip := t', pending := newInc }

/-- `n` passes of the review loop; the loop of the source terminates
exactly when `pending` becomes empty. -/
def reviewRun (act : ℕ → String → String) : ℕ → LoopState → LoopState
  | 0, st => st
  | n + 1, st => reviewRun act n (reviewStep act st)

/-! ### Specification-side predicates (spec §4.4: a value is "valid" iff it
is present and not the missing sentinel; each rule compares a pair of
valid values) -/

/-- Both cells hold valid (present, non-sentinel) values and they are
equal. -/
def vEqP (x y : Option ℚ) : Prop :=
  ∃ a b, x = some a ∧ y = some b ∧ a ≠ -99 ∧ b ≠ -99 ∧ a = b

/-- Both cells hold valid (present, non-sentinel) values and the first is
strictly below the second. -/
def vLtP (x y : Option ℚ) : Prop :=
  ∃ a b, x = some a ∧ y = some b ∧ a ≠ -99 ∧ b ≠ -99 ∧ a < b

/-- Value of a possibly-absent series at a date. -/
def lookupT (os : Option Series) (d : ℕ) : Option ℚ :=
  os.bind (fun s => getVal s d)

/-- The date has a row in the series and every row at that date carries
the value `v` (after `_set_val` this holds for the written value, whatever
the row order). -/
def KeyVal (s : Series) (d : ℕ) (v : ℚ) : Prop :=
  (d, v) ∈ s ∧ ∀ w, (d, w) ∈ s → w = v

instance (x y : Option ℚ) : Decidable (vEqP x y) :=
  decidable_of_iff (bothValidAnd x y (fun a b => a == b) = true)
    (by cases x <;> cases y <;> simp [bothValidAnd, vEqP, and_assoc])

instance (x y : Option ℚ) : Decidable (vLtP x y) :=
  decidable_of_iff (bothValidAnd x y (fun a b => a < b) = true)
    (by cases x <;> cases y <;> simp [bothValidAnd, vLtP, and_assoc])

/-- A reviewer decision that never changes the classification: action 'm'
(keep) for every presented inconsistency. -/
def brokenAction : ℕ → String → String := fun _ _ => "m"

/-- A triplet with two persistent inconsistencies: tmin = tmax = 10 and
tmean = 5 on two dates, so both dates classify as "tmin==tmax" and the
keep action leaves the triplet unchanged. -/
def c6Trip : Triplet :=
  ⟨some [(1, 10), (2, 10)], some [(1, 5), (2, 5)], some [(1, 10), (2, 10)]⟩

/-- Review-loop start state on `c6Trip`. -/
def c6Start : LoopState := ⟨c6Trip, detectT c6Trip⟩

/-- Loop state after the first date has been force-dropped. -/
def c6A : LoopState := ⟨c6Trip, [(2, "tmin==tmax")]⟩

/-- Loop state after the second date has been force-dropped (the first
date has reappeared through re-detection). -/
def c6B : LoopState := ⟨c6Trip, [(1, "tmin==tmax")]⟩

/-! ## Theorems -/

/-- Claim C9: `compute_bounds` computes p_low and p_high as
linear-interpolation quantiles of the sample and derives
iqr = p_high - p_low, lim_inf = p_low - k*iqr, lim_sup = p_high + k*iqr;
on the sample [10, 20, 30, 40, 50] with lower_p = 0.1, upper_p = 0.9,
k = 1.5 it returns exactly p_low = 14, p_high = 46, iqr = 32,
lim_inf = -34, lim_sup = 94. -/
theorem compute_bounds_example_values :
    (∀ (xs : List ℚ) (lp up k : ℚ), xs ≠ [] →
      compute_bounds xs lp up k =
        ⟨some (percentileLinear xs (lp * 100)), some (percentileLinear xs (up * 100)),
         some (percentileLinear xs (up * 100) - percentileLinear xs (lp * 100)),
         some (percentileLinear xs (lp * 100) -
           k * (percentileLinear xs (up * 100) - percentileLinear xs (lp * 100))),
         some (percentileLinear xs (up * 100) +
           k * (percentileLinear xs (up * 100) - percentileLinear xs (lp * 100)))⟩) ∧
    compute_bounds [10, 20, 30, 40, 50] (1 / 10) (9 / 10) (3 / 2) =
      ⟨some 14, some 46, some 32, some (-34), some 94⟩ := by
  refine ⟨?_, ?_⟩
  · intro xs lp up k hne
    rw [compute_bounds, if_neg (by simpa [List.length_eq_zero] using hne)]
  have hs : List.insertionSort (α := ℚ) (· ≤ ·) [10, 20, 30, 40, 50] = [10, 20, 30, 40, 50] :=
    List.Sorted.insertionSort_eq (by norm_num [List.sorted_cons])
  have hf1 : ⌊((5 : ℚ) - 1) * (1 / 10 * 100) / 100⌋ = 0 := by
    rw [Int.floor_eq_iff]; norm_num
  have hf2 : ⌊((5 : ℚ) - 1) * (9 / 10 * 100) / 100⌋ = 3 := by
    rw [Int.floor_eq_iff]; norm_num
  have p1 : percentileLinear [10, 20, 30, 40, 50] (1 / 10 * 100) = 14 := by
    simp only [percentileLinear, hs, List.length_cons, List.length_nil]
    norm_num [hf1, List.getD]
  have p2 : percentileLinear [10, 20, 30, 40, 50] (9 / 10 * 100) = 46 := by
    have ht : (3 : ℤ).toNat = 3 := rfl
    simp only [percentileLinear, hs, List.length_cons, List.length_nil]
    norm_num [hf2, ht, List.getD, List.getElem_cons_succ, List.getElem_cons_zero]
  simp only [compute_bounds, p1, p2]
  norm_num

/-- Claim C9 witness: the formula part instantiated on the non-empty
sample [1]. -/
theorem compute_bounds_example_values_witness :
    compute_bounds [1] 0 0 0 =
      ⟨some (percentileLinear [1] (0 * 100)), some (percentileLinear [1] (0 * 100)),
       some (percentileLinear [1] (0 * 100) - percentileLinear [1] (0 * 100)),
       some (percentileLinear [1] (0 * 100) -
         0 * (percentileLinear [1] (0 * 100) - percentileLinear [1] (0 * 100))),
       some (percentileLinear [1] (0 * 100) +
         0 * (percentileLinear [1] (0 * 100) - percentileLinear [1] (0 * 100)))⟩ :=
  compute_bounds_example_values.1 [1] 0 0 0 (by simp)

/-- Claim C10 (bug evidence): `read_series` leaves the historic missing
spelling -99.9 untouched — the loaded value is -99.9, distinct from the
canonical -99 marker — whereas `normalize_missing_values` (the loader of
qc_batch_temperature.py) maps it to -99. -/
theorem read_series_keeps_minus99_9 :
    read_series [(some 20200101, some (-999 / 10))] = [(20200101, some (-999 / 10))] ∧
    (-999 / 10 : ℚ) ≠ -99 ∧
    normalize_missing_values (some (-999 / 10)) = -99 := by
  refine ⟨rfl, by norm_num, by norm_num [normalize_missing_values]⟩

/-- Claim C2 counterexample: on the date with tmin = 10, tmean = 5,
tmax = 5 all three values are valid and tmax < tmin, yet
`detect_thermal_inconsistencies` classifies the date as "tmean==tmax",
not "tmax<tmin" — the equality rules outrank the inversion rule. -/
theorem tmax_lt_tmin_not_exclusive_cex :
    detect_thermal_inconsistencies (some [(0, 10)]) (some [(0, 5)]) (some [(0, 5)]) =
      [(0, "tmean==tmax")] ∧
    (5 : ℚ) < 10 ∧ (10 : ℚ) ≠ -99 ∧ (5 : ℚ) ≠ -99 ∧
    (0, "tmax<tmin") ∉
      detect_thermal_inconsistencies (some [(0, 10)]) (some [(0, 5)]) (some [(0, 5)]) := by
  refine ⟨by decide, by norm_num, by norm_num, by norm_num, by decide⟩

/-- Claim C3 counterexample: on a date where tmin is missing (no row) and
tmax = 20, the swap action 'i' is not a no-op: the materialized -99 and
the 20 are exchanged, leaving tmin = 20 and tmax = -99. -/
theorem swap_missing_not_noop_cex :
    getVal [] 0 = none ∧
    (apply_thermal_correction "i" 0 ⟨some [], some [], some [(0, 20)]⟩
        (none, none, none)).tmin = some [(0, 20)] ∧
    (apply_thermal_correction "i" 0 ⟨some [], some [], some [(0, 20)]⟩
        (none, none, none)).tmax = some [(0, -99)] := by
  refine ⟨rfl, by decide, by decide⟩

/-- Claim C4 counterexample: applying the keep action 'm' at a date for
which the tmean series has no row appends a -99 row to tmean, so the
triplet is not byte-for-byte identical to its state before the call. -/
theorem keep_creates_missing_row_cex :
    (apply_thermal_correction "m" 0 ⟨some [(0, 10)], some [], some [(0, 10)]⟩
        (none, none, none)).tmean = some [(0, -99)] ∧
    some ([] : Series) ≠ some [((0 : ℕ), (-99 : ℚ))] := by
  refine ⟨by decide, by decide⟩

/-- Claim C5 counterexample: at a date with exactly two valid values,
tmin = 30 and tmax = 20 (tmean = -99), the reorder action 'r' yields
tmin = 20, tmean = 30, tmax = 20 — the assigned values violate
tmean ≤ tmax. -/
theorem reorder_two_valid_order_violation_cex :
    (apply_thermal_correction "r" 0 ⟨some [(0, 30)], some [(0, -99)], some [(0, 20)]⟩
        (none, none, none)) =
      ⟨some [(0, 20)], some [(0, 30)], some [(0, 20)]⟩ ∧
    ¬ ((30 : ℚ) ≤ 20) := by
  refine ⟨by decide, by norm_num⟩

theorem c6_step_start : reviewStep brokenAction c6Start = c6A := by decide

theorem c6_step_A : reviewStep brokenAction c6A = c6B := by decide

theorem c6_step_B : reviewStep brokenAction c6B = c6A := by decide

theorem c6_states (n : ℕ) :
    ∀ st, st = c6Start ∨ st = c6A ∨ st = c6B →
      reviewRun brokenAction n st = c6Start ∨
      reviewRun brokenAction n st = c6A ∨
      reviewRun brokenAction n st = c6B := by
  induction n with
  | zero => intro st h; simpa [reviewRun] using h
  | succ k ih =>
    intro st h
    rcases h with h | h | h <;> subst h
    · rw [reviewRun, c6_step_start]; exact ih _ (Or.inr (Or.inl rfl))
    · rw [reviewRun, c6_step_A]; exact ih _ (Or.inr (Or.inr rfl))
    · rw [reviewRun, c6_step_B]; exact ih _ (Or.inr (Or.inl rfl))

/-- Claim C6 (bug evidence): the thermal review loop does NOT terminate on
every input.  On a triplet with two persistent inconsistencies and a
decision (keep) that never changes the classification, force-dropping only
filters the current date from the freshly re-detected list, so the other
stuck date reappears and the loop alternates between the two dates
forever: after any number of iterations the pending queue is non-empty. -/
theorem review_loop_nonterminating_on_two_stuck :
    ∀ n, (reviewRun brokenAction n c6Start).pending ≠ [] := by
  intro n
  rcases c6_states n c6Start (Or.inl rfl) with h | h | h <;> rw [h] <;> decide

theorem vEqP_iff {x y : Option ℚ} :
    bothValidAnd x y (fun a b => a == b) = true ↔ vEqP x y := by
  cases x <;> cases y <;> simp [bothValidAnd, vEqP, and_assoc]

theorem vLtP_iff {x y : Option ℚ} :
    bothValidAnd x y (fun a b => a < b) = true ↔ vLtP x y := by
  cases x <;> cases y <;> simp [bothValidAnd, vLtP, and_assoc]

theorem vGtP_iff {x y : Option ℚ} :
    bothValidAnd x y (fun a b => b < a) = true ↔ vLtP y x := by
  cases x <;> cases y <;> simp [bothValidAnd, vLtP, and_assoc]
  tauto

/-- The classification chain, rephrased over the spec-side valid-pair
predicates: first match wins in the order of spec §4.4. -/
theorem classify_spec (tn tm tx : Option ℚ) :
    classify tn tm tx =
      if vEqP tn tx then some "tmin==tmax"
      else if vEqP tm tx then some "tmean==tmax"
      else if vEqP tm tn then some "tmean==tmin"
      else if vLtP tx tn then some "tmax<tmin"
      else if vLtP tx tm then some "tmean>tmax"
      else if vLtP tm tn then some "tmean<tmin"
      else none := by
  simp only [classify, vEqP_iff, vLtP_iff, vGtP_iff]

theorem mem_detect {t1 t2 t3 : Option Series} {d : ℕ} {k : String} :
    (d, k) ∈ detect_thermal_inconsistencies t1 t2 t3 ↔
      d ∈ mergedDates t1 t2 t3 ∧
        classify (jVal t1 d) (jVal t2 d) (jVal t3 d) = some k := by
  unfold detect_thermal_inconsistencies
  rw [List.mem_filterMap]
  constructor
  · rintro ⟨d', hd', hf⟩
    rcases Option.map_eq_some'.mp hf with ⟨k', hk', he⟩
    obtain ⟨rfl, rfl⟩ : d' = d ∧ k' = k := by
      exact ⟨congrArg Prod.fst he, congrArg Prod.snd he⟩
    exact ⟨hd', hk'⟩
  · rintro ⟨hd, hcl⟩
    exact ⟨d, hd, by rw [hcl]; rfl⟩

/-- Claim C1: for every date of the outer join,
`detect_thermal_inconsistencies` assigns at most one kind, chosen by
first-match-wins precedence over pairs of valid (present, non-sentinel)
values — tmin==tmax, then tmean==tmax, then tmean==tmin, then tmax<tmin,
then tmean>tmax, then tmean<tmin — and a date matching none of the six
rules is not reported. -/
theorem detect_precedence_first_match (t1 t2 t3 : Option Series) (d : ℕ) :
    (∀ k k', (d, k) ∈ detect_thermal_inconsistencies t1 t2 t3 →
      (d, k') ∈ detect_thermal_inconsistencies t1 t2 t3 → k = k') ∧
    (vEqP (jVal t1 d) (jVal t3 d) →
      ((d, "tmin==tmax") ∈ detect_thermal_inconsistencies t1 t2 t3 ↔
        d ∈ mergedDates t1 t2 t3)) ∧
    (¬ vEqP (jVal t1 d) (jVal t3 d) → vEqP (jVal t2 d) (jVal t3 d) →
      ((d, "tmean==tmax") ∈ detect_thermal_inconsistencies t1 t2 t3 ↔
        d ∈ mergedDates t1 t2 t3)) ∧
    (¬ vEqP (jVal t1 d) (jVal t3 d) → ¬ vEqP (jVal t2 d) (jVal t3 d) →
      vEqP (jVal t2 d) (jVal t1 d) →
      ((d, "tmean==tmin") ∈ detect_thermal_inconsistencies t1 t2 t3 ↔
        d ∈ mergedDates t1 t2 t3)) ∧
    (¬ vEqP (jVal t1 d) (jVal t3 d) → ¬ vEqP (jVal t2 d) (jVal t3 d) →
      ¬ vEqP (jVal t2 d) (jVal t1 d) → vLtP (jVal t3 d) (jVal t1 d) →
      ((d, "tmax<tmin") ∈ detect_thermal_inconsistencies t1 t2 t3 ↔
        d ∈ mergedDates t1 t2 t3)) ∧
    (¬ vEqP (jVal t1 d) (jVal t3 d) → ¬ vEqP (jVal t2 d) (jVal t3 d) →
      ¬ vEqP (jVal t2 d) (jVal t1 d) → ¬ vLtP (jVal t3 d) (jVal t1 d) →
      vLtP (jVal t3 d) (jVal t2 d) →
      ((d, "tmean>tmax") ∈ detect_thermal_inconsistencies t1 t2 t3 ↔
        d ∈ mergedDates t1 t2 t3)) ∧
    (¬ vEqP (jVal t1 d) (jVal t3 d) → ¬ vEqP (jVal t2 d) (jVal t3 d) →
      ¬ vEqP (jVal t2 d) (jVal t1 d) → ¬ vLtP (jVal t3 d) (jVal t1 d) →
      ¬ vLtP (jVal t3 d) (jVal t2 d) → vLtP (jVal t2 d) (jVal t1 d) →
      ((d, "tmean<tmin") ∈ detect_thermal_inconsistencies t1 t2 t3 ↔
        d ∈ mergedDates t1 t2 t3)) ∧
    (¬ vEqP (jVal t1 d) (jVal t3 d) → ¬ vEqP (jVal t2 d) (jVal t3 d) →
      ¬ vEqP (jVal t2 d) (jVal t1 d) → ¬ vLtP (jVal t3 d) (jVal t1 d) →
      ¬ vLtP (jVal t3 d) (jVal t2 d) → ¬ vLtP (jVal t2 d) (jVal t1 d) →
      ∀ k, (d, k) ∉ detect_thermal_inconsistencies t1 t2 t3) := by
  refine ⟨?_, ?_, ?_, ?_, ?_, ?_, ?_, ?_⟩
  · intro k k' hk hk'
    have h1 := (mem_detect.mp hk).2
    have h2 := (mem_detect.mp hk').2
    rw [h1] at h2
    exact Option.some.inj h2
  · intro h1
    rw [mem_detect, classify_spec, if_pos h1]
    simp
  · intro h1 h2
    rw [mem_detect, classify_spec, if_neg h1, if_pos h2]
    simp
  · intro h1 h2 h3
    rw [mem_detect, classify_spec, if_neg h1, if_neg h2, if_pos h3]
    simp
  · intro h1 h2 h3 h4
    rw [mem_detect, classify_spec, if_neg h1, if_neg h2, if_neg h3, if_pos h4]
    simp
  · intro h1 h2 h3 h4 h5
    rw [mem_detect, classify_spec, if_neg h1, if_neg h2, if_neg h3, if_neg h4, if_pos h5]
    simp
  · intro h1 h2 h3 h4 h5 h6
    rw [mem_detect, classify_spec, if_neg h1, if_neg h2, if_neg h3, if_neg h4, if_neg h5,
      if_pos h6]
    simp
  · intro h1 h2 h3 h4 h5 h6 k hk
    have := (mem_detect.mp hk).2
    rw [classify_spec, if_neg h1, if_neg h2, if_neg h3, if_neg h4, if_neg h5, if_neg h6] at this
    exact Option.noConfusion this

theorem any_key_iff {s : Series} {d : ℕ} :
    s.any (fun p => p.1 == d) = true ↔ ∃ v, (d, v) ∈ s := by
  rw [List.any_eq_true]
  constructor
  · rintro ⟨⟨x, v⟩, hm, he⟩
    obtain rfl : x = d := by simp at he; exact he
    exact ⟨v, hm⟩
  · rintro ⟨v, hm⟩
    exact ⟨(d, v), hm, by simp⟩

theorem getVal_mem {s : Series} {d : ℕ} {v : ℚ} (h : getVal s d = some v) :
    (d, v) ∈ s := by
  unfold getVal at h
  rcases Option.map_eq_some'.mp h with ⟨p, hp, hv⟩
  have hd : p.1 = d := by have h2 := List.find?_some hp; simp at h2; exact h2
  have hm := List.mem_of_find?_eq_some hp
  have : p = (d, v) := by
    cases p
    simp_all
  rwa [this] at hm

theorem getVal_of_keyVal {s : Series} {d : ℕ} {v : ℚ} (h : KeyVal s d v) :
    getVal s d = some v := by
  have hsome : (s.find? (fun p => p.1 == d)).isSome = true :=
    List.find?_isSome.mpr ⟨(d, v), h.1, by simp⟩
  rcases Option.isSome_iff_exists.mp hsome with ⟨p, hp⟩
  have hd : p.1 = d := by have h2 := List.find?_some hp; simp at h2; exact h2
  have hm := List.mem_of_find?_eq_some hp
  have hv : p.2 = v := by
    apply h.2
    have : p = (d, p.2) := by cases p; simp_all
    rwa [this] at hm
  unfold getVal
  rw [hp]
  simp [hv]

theorem keyVal_sortSeries {s : Series} {d : ℕ} {v : ℚ} (h : KeyVal s d v) :
    KeyVal (sortSeries s) d v := by
  unfold sortSeries
  exact ⟨(List.mem_insertionSort _).mpr h.1,
    fun w hw => h.2 w ((List.mem_insertionSort _).mp hw)⟩

theorem keyVal_setVal {s : Series} {d : ℕ} {v : ℚ} (hex : ∃ v0, (d, v0) ∈ s) :
    KeyVal (setVal s d v) d v := by
  unfold setVal
  rw [if_pos (any_key_iff.mpr hex)]
  rcases hex with ⟨v0, hv0⟩
  constructor
  · refine List.mem_map.mpr ⟨(d, v0), hv0, ?_⟩
    simp
  · intro w hw
    rcases List.mem_map.mp hw with ⟨⟨x, u⟩, hm, he⟩
    by_cases hx : x = d
    · subst hx
      have he2 := he.symm
      simp at he2
      exact he2
    · exfalso
      simp [hx] at he

theorem mem_mergedDates {t1 t2 t3 : Option Series} {d : ℕ} :
    d ∈ mergedDates t1 t2 t3 ↔
      d ∈ seriesDates t1 ∨ d ∈ seriesDates t2 ∨ d ∈ seriesDates t3 := by
  unfold mergedDates
  rw [List.mem_insertionSort, List.mem_dedup]
  simp [or_assoc]

theorem mem_seriesDates_of_jVal {os : Option Series} {d : ℕ} {a : ℚ}
    (h : jVal os d = some a) (ha : a ≠ -99) : d ∈ seriesDates os := by
  cases os with
  | none =>
    refine absurd ?_ ha
    have : some (-99 : ℚ) = some a := by simpa [jVal] using h
    exact (Option.some.inj this).symm
  | some s =>
    have hm : (d, a) ∈ s := getVal_mem (by simpa [jVal] using h)
    exact List.mem_map.mpr ⟨(d, a), hm, rfl⟩

/-- Claim C1 witness: instantiation at a concrete triplet where rule 1
(tmin==tmax) fires. -/
theorem detect_precedence_first_match_witness :
    (0, "tmin==tmax") ∈
      detect_thermal_inconsistencies (some [(0, 5)]) none (some [(0, 5)]) :=
  ((detect_precedence_first_match (some [(0, 5)]) none (some [(0, 5)]) 0).2.1
    ⟨5, 5, by decide, by decide, by norm_num, by norm_num, rfl⟩).mpr (by decide)

/-- Claim C2 (amended): for every date where tmin and tmax are valid and
tmax < tmin, and additionally neither of the higher-ranked equality rules
fires (tmean==tmax, tmean==tmin; tmin==tmax is excluded by tmax < tmin
itself), the date is classified as exactly "tmax<tmin" and no other kind
is reported for it. -/
theorem tmax_lt_tmin_classification_amended (t1 t2 t3 : Option Series) (d : ℕ)
    (a c : ℚ) (h1 : jVal t1 d = some a) (h3 : jVal t3 d = some c)
    (ha : a ≠ -99) (hc : c ≠ -99) (hlt : c < a)
    (hne2 : ¬ vEqP (jVal t2 d) (jVal t3 d))
    (hne3 : ¬ vEqP (jVal t2 d) (jVal t1 d)) :
    (d, "tmax<tmin") ∈ detect_thermal_inconsistencies t1 t2 t3 ∧
    ∀ k, (d, k) ∈ detect_thermal_inconsistencies t1 t2 t3 → k = "tmax<tmin" := by
  have hne1 : ¬ vEqP (jVal t1 d) (jVal t3 d) := by
    rintro ⟨x, y, hx, hy, -, -, hxy⟩
    rw [h1] at hx
    rw [h3] at hy
    obtain rfl : x = a := (Option.some.inj hx).symm
    obtain rfl : y = c := (Option.some.inj hy).symm
    exact absurd hxy (ne_of_gt hlt)
  have hcl : classify (jVal t1 d) (jVal t2 d) (jVal t3 d) = some "tmax<tmin" := by
    rw [classify_spec, if_neg hne1, if_neg hne2, if_neg hne3,
      if_pos ⟨c, a, h3, h1, hc, ha, hlt⟩]
  have hd : d ∈ mergedDates t1 t2 t3 :=
    mem_mergedDates.mpr (Or.inl (mem_seriesDates_of_jVal h1 ha))
  refine ⟨mem_detect.mpr ⟨hd, hcl⟩, fun k hk => ?_⟩
  have := (mem_detect.mp hk).2
  rw [hcl] at this
  exact (Option.some.inj this).symm

/-- Claim C2 (amended) witness: tmin = 10, tmean = 3, tmax = 5 — an
inverted date with no equality rule applicable. -/
theorem tmax_lt_tmin_classification_amended_witness :
    (0, "tmax<tmin") ∈
      detect_thermal_inconsistencies (some [(0, 10)]) (some [(0, 3)]) (some [(0, 5)]) :=
  (tmax_lt_tmin_classification_amended (some [(0, 10)]) (some [(0, 3)]) (some [(0, 5)])
    0 10 5 (by decide) (by decide) (by norm_num) (by norm_num) (by norm_num)
    (by decide) (by decide)).1

/-- Claim C3 (amended): the swap action 'i' always exchanges the
materialized tmin and tmax values at the date — absent rows (and absent
series) are first materialized as the -99 sentinel, and the sentinel is
swapped like any other value, so swap is not a no-op when exactly one of
the two values is missing; the None-guard of the source is unreachable
because row-materialization runs first.  tmean is left unchanged up to
the final re-sort. -/
theorem swap_exchanges_materialized_values (t : Triplet) (d : ℕ)
    (e : Option ℚ × Option ℚ × Option ℚ) (a c : ℚ)
    (h1 : getVal (ensureRow t.tmin d) d = some a)
    (h3 : getVal (ensureRow t.tmax d) d = some c) :
    lookupT (apply_thermal_correction "i" d t e).tmin d = some c ∧
    lookupT (apply_thermal_correction "i" d t e).tmax d = some a ∧
    (apply_thermal_correction "i" d t e).tmean =
      some (sortSeries (ensureRow t.tmean d)) := by
  have happ : apply_thermal_correction "i" d t e =
      ⟨some (sortSeries (setVal (ensureRow t.tmin d) d c)),
       some (sortSeries (ensureRow t.tmean d)),
       some (sortSeries (setVal (ensureRow t.tmax d) d a))⟩ := by
    simp only [apply_thermal_correction]
    rw [h1, h3]
    simp
  rw [happ]
  refine ⟨?_, ?_, rfl⟩
  · exact getVal_of_keyVal (keyVal_sortSeries (keyVal_setVal ⟨a, getVal_mem h1⟩))
  · exact getVal_of_keyVal (keyVal_sortSeries (keyVal_setVal ⟨c, getVal_mem h3⟩))

/-- Claim C3 (amended) witness: tmin = 3 and tmax = 20 at date 0 are
exchanged. -/
theorem swap_exchanges_materialized_values_witness :
    lookupT (apply_thermal_correction "i" 0 ⟨some [(0, 3)], some [], some [(0, 20)]⟩
        (none, none, none)).tmin 0 = some 20 ∧
    lookupT (apply_thermal_correction "i" 0 ⟨some [(0, 3)], some [], some [(0, 20)]⟩
        (none, none, none)).tmax 0 = some 3 ∧
    (apply_thermal_correction "i" 0 ⟨some [(0, 3)], some [], some [(0, 20)]⟩
        (none, none, none)).tmean = some (sortSeries (ensureRow (some []) 0)) :=
  swap_exchanges_materialized_values ⟨some [(0, 3)], some [], some [(0, 20)]⟩ 0
    (none, none, none) 3 20 (by decide) (by decide)

/-- Claim C4 (amended): the keep action 'm' mutates no values, and leaves
the three series exactly identical to their state before the call
whenever each series is present, sorted by date, and already contains a
row for the date.  (Without that proviso the call still changes no value,
but materializes a -99 row for the date in any series lacking one.) -/
theorem keep_identity_on_complete_sorted_triplet (t : Triplet) (d : ℕ)
    (e : Option ℚ × Option ℚ × Option ℚ) (s1 s2 s3 : Series)
    (ht1 : t.tmin = some s1) (ht2 : t.tmean = some s2) (ht3 : t.tmax = some s3)
    (ho1 : List.Sorted (fun p q => p.1 ≤ q.1) s1)
    (ho2 : List.Sorted (fun p q => p.1 ≤ q.1) s2)
    (ho3 : List.Sorted (fun p q => p.1 ≤ q.1) s3)
    (he1 : ∃ v, (d, v) ∈ s1) (he2 : ∃ v, (d, v) ∈ s2) (he3 : ∃ v, (d, v) ∈ s3) :
    apply_thermal_correction "m" d t e = t := by
  have er : ∀ (s : Series), (∃ v, (d, v) ∈ s) → ensureRow (some s) d = s := by
    intro s hs
    simp only [ensureRow, if_pos (any_key_iff.mpr hs)]
  obtain ⟨o1, o2, o3⟩ := t
  simp only at ht1 ht2 ht3
  subst ht1
  subst ht2
  subst ht3
  simp only [apply_thermal_correction, er s1 he1, er s2 he2, er s3 he3]
  simp [sortSeries]
  exact ⟨ho1.insertionSort_eq, ho2.insertionSort_eq, ho3.insertionSort_eq⟩

/-- Claim C4 (amended) witness: a complete sorted triplet at date 0 is
returned unchanged by keep. -/
theorem keep_identity_on_complete_sorted_triplet_witness :
    apply_thermal_correction "m" 0 ⟨some [(0, 7)], some [(0, 5)], some [(0, 7)]⟩
      (none, none, none) = ⟨some [(0, 7)], some [(0, 5)], some [(0, 7)]⟩ :=
  keep_identity_on_complete_sorted_triplet
    ⟨some [(0, 7)], some [(0, 5)], some [(0, 7)]⟩ 0 (none, none, none)
    [(0, 7)] [(0, 5)] [(0, 7)] rfl rfl rfl
    (by simp) (by simp) (by simp)
    ⟨7, by simp⟩ ⟨5, by simp⟩ ⟨7, by simp⟩

/-- Claim C5 (amended): at a date whose three materialized values are all
valid, the reorder action 'r' reassigns the ascending sort positionally,
so afterwards tmin ≤ tmean ≤ tmax and the values are a permutation of the
originals (in particular {tmin 30, tmean 10, tmax 20} becomes
{10, 20, 30}); with fewer than two valid values no value is assigned
(only row-materialization and the final re-sort happen).  With exactly
two valid values, tmin and tmean receive the sorted pair while tmax keeps
its own valid value (or receives the larger when missing), so
tmean ≤ tmax can fail there — see the counterexample. -/
theorem reorder_amended (t : Triplet) (d : ℕ) (e : Option ℚ × Option ℚ × Option ℚ)
    (a b c : ℚ)
    (h1 : getVal (ensureRow t.tmin d) d = some a)
    (h2 : getVal (ensureRow t.tmean d) d = some b)
    (h3 : getVal (ensureRow t.tmax d) d = some c) :
    (a ≠ -99 → b ≠ -99 → c ≠ -99 →
      ∃ x y z,
        lookupT (apply_thermal_correction "r" d t e).tmin d = some x ∧
        lookupT (apply_thermal_correction "r" d t e).tmean d = some y ∧
        lookupT (apply_thermal_correction "r" d t e).tmax d = some z ∧
        x ≤ y ∧ y ≤ z ∧ [x, y, z].Perm [a, b, c]) ∧
    (([a, b, c].filter (fun v => v != -99)).length < 2 →
      apply_thermal_correction "r" d t e =
        ⟨some (sortSeries (ensureRow t.tmin d)),
         some (sortSeries (ensureRow t.tmean d)),
         some (sortSeries (ensureRow t.tmax d))⟩) ∧
    apply_thermal_correction "r" 0
        ⟨some [(0, 30)], some [(0, 10)], some [(0, 20)]⟩ (none, none, none) =
      ⟨some [(0, 10)], some [(0, 20)], some [(0, 30)]⟩ := by
  have happ : apply_thermal_correction "r" d t e =
      ⟨some (sortSeries (applyAssign (ensureRow t.tmin d) d
          (reorderAssign (some a) (some b) (some c)).1)),
       some (sortSeries (applyAssign (ensureRow t.tmean d) d
          (reorderAssign (some a) (some b) (some c)).2.1)),
       some (sortSeries (applyAssign (ensureRow t.tmax d) d
          (reorderAssign (some a) (some b) (some c)).2.2))⟩ := by
    simp only [apply_thermal_correction]
    rw [h1, h2, h3]
    simp
  refine ⟨?_, ?_, by decide⟩
  · intro ha hb hc
    have hfil : ([some a, some b, some c].filterMap id).filter (fun v => v != -99) =
        [a, b, c] := by
      have ba : (a != -99) = true := bne_iff_ne.mpr ha
      have bb : (b != -99) = true := bne_iff_ne.mpr hb
      have bc : (c != -99) = true := bne_iff_ne.mpr hc
      simp only [List.filterMap, id]
      simp [List.filter, ba, bb, bc]
    have hperm0 := List.perm_insertionSort (α := ℚ) (· ≤ ·) [a, b, c]
    have hlen : (List.insertionSort (α := ℚ) (· ≤ ·) [a, b, c]).length = 3 := by
      rw [hperm0.length_eq]
      rfl
    obtain ⟨x, y, z, hvs⟩ :
        ∃ x y z, List.insertionSort (α := ℚ) (· ≤ ·) [a, b, c] = [x, y, z] := by
      rcases hl : List.insertionSort (α := ℚ) (· ≤ ·) [a, b, c]
        with _ | ⟨x, _ | ⟨y, _ | ⟨z, _ | w⟩⟩⟩ <;> rw [hl] at hlen <;> simp at hlen
      · exact ⟨x, y, z, rfl⟩
    have hsort := List.sorted_insertionSort (α := ℚ) (· ≤ ·) [a, b, c]
    rw [hvs] at hsort
    have hxy : x ≤ y := (List.sorted_cons.mp hsort).1 y (by simp)
    have hyz : y ≤ z := (List.sorted_cons.mp ((List.sorted_cons.mp hsort).2)).1 z (by simp)
    have hperm : [x, y, z].Perm [a, b, c] := by
      rw [hvs] at hperm0
      exact hperm0
    have hra : reorderAssign (some a) (some b) (some c) = (some x, some y, some z) := by
      simp only [reorderAssign, hfil, hvs]
      norm_num
    refine ⟨x, y, z, ?_, ?_, ?_, hxy, hyz, hperm⟩
    · rw [happ, hra]
      exact getVal_of_keyVal (keyVal_sortSeries (keyVal_setVal ⟨a, getVal_mem h1⟩))
    · rw [happ, hra]
      exact getVal_of_keyVal (keyVal_sortSeries (keyVal_setVal ⟨b, getVal_mem h2⟩))
    · rw [happ, hra]
      exact getVal_of_keyVal (keyVal_sortSeries (keyVal_setVal ⟨c, getVal_mem h3⟩))
  · intro hlt
    have hra : reorderAssign (some a) (some b) (some c) = (none, none, none) := by
      have hvals : ([some a, some b, some c].filterMap id).filter (fun v => v != -99) =
          [a, b, c].filter (fun v => v != -99) := rfl
      simp only [reorderAssign, hvals]
      rw [if_neg (by omega)]
    rw [happ, hra]
    rfl

/-- Claim C5 (amended) witness: instantiation of the all-valid case at
tmin = 30, tmean = 10, tmax = 20. -/
theorem reorder_amended_witness :
    ∃ x y z,
      lookupT (apply_thermal_correction "r" 0
          ⟨some [(0, 30)], some [(0, 10)], some [(0, 20)]⟩ (none, none, none)).tmin 0 =
        some x ∧
      lookupT (apply_thermal_correction "r" 0
          ⟨some [(0, 30)], some [(0, 10)], some [(0, 20)]⟩ (none, none, none)).tmean 0 =
        some y ∧
      lookupT (apply_thermal_correction "r" 0
          ⟨some [(0, 30)], some [(0, 10)], some [(0, 20)]⟩ (none, none, none)).tmax 0 =
        some z ∧
      x ≤ y ∧ y ≤ z ∧ [x, y, z].Perm [30, 10, 20] :=
  (reorder_amended ⟨some [(0, 30)], some [(0, 10)], some [(0, 20)]⟩ 0 (none, none, none)
    30 10 20 (by decide) (by decide) (by decide)).1
    (by norm_num) (by norm_num) (by norm_num)

theorem mem_get_validated_outliers {log : List AuditEntry} {s0 : String} {f0 : ℕ} :
    (s0, f0) ∈ get_validated_outliers log ↔
      ∃ en ∈ log, en.accion = "m" ∧ en.estacion = s0 ∧ en.fecha = f0 := by
  unfold get_validated_outliers
  simp only [List.mem_map, List.mem_filter, beq_iff_eq, Prod.mk.injEq]
  constructor
  · rintro ⟨en, ⟨hm, hacc⟩, hst, hfe⟩
    exact ⟨en, hm, hacc, hst, hfe⟩
  · rintro ⟨en, hm, hacc, hst, hfe⟩
    exact ⟨en, ⟨hm, hacc⟩, hst, hfe⟩

/-- Claim C7: `detect_outliers` never returns an entry whose value is the
missing sentinel -99, and never an entry whose (station, date) pair is
recorded in the audit log with the keep action 'm'. -/
theorem detect_outliers_skips_missing_and_kept
    (df : List (ℕ × ℚ)) (bounds : Bounds) (log : List AuditEntry) (st : String)
    (i : ℕ) (v : ℚ)
    (hmem : (i, v) ∈ detect_outliers df bounds log st) :
    v ≠ -99 ∧ ∃ fecha, df[i]? = some (fecha, v) ∧
      ∀ en ∈ log, en.accion = "m" → ¬(en.estacion = st ∧ en.fecha = fecha) := by
  simp only [detect_outliers] at hmem
  split at hmem
  · exact absurd hmem (List.not_mem_nil _)
  · split at hmem
    case _ li ls _ =>
      split at hmem
      · exact absurd hmem (List.not_mem_nil _)
      · rcases List.mem_filterMap.mp hmem with ⟨p, hp, hf⟩
        obtain ⟨j, fecha, w⟩ := p
        simp only at hf
        split_ifs at hf with hw hval hcmp
        have hpair : (j, w) = (i, v) := Option.some.inj hf
        have hji : j = i := congrArg Prod.fst hpair
        have hwv : w = v := congrArg Prod.snd hpair
        subst hji
        subst hwv
        refine ⟨by simpa using hw, fecha, ?_, ?_⟩
        · exact List.mk_mem_enum_iff_getElem?.mp hp
        · intro en hen hacc
          rintro ⟨hst, hfe⟩
          exact hval (mem_get_validated_outliers.mpr ⟨en, hen, hacc, hst, hfe⟩)
    case _ h =>
      exact absurd hmem (List.not_mem_nil _)

/-- Claim C7 witness: a single over-bound value at index 0 is flagged and
the conclusions hold for it. -/
theorem detect_outliers_skips_missing_and_kept_witness :
    (100 : ℚ) ≠ -99 ∧ ∃ fecha, ([((5 : ℕ), (100 : ℚ))])[(0 : ℕ)]? = some (fecha, 100) ∧
      ∀ en ∈ ([] : List AuditEntry), en.accion = "m" →
        ¬(en.estacion = "S" ∧ en.fecha = fecha) :=
  detect_outliers_skips_missing_and_kept [(5, 100)]
    ⟨none, none, none, some 0, some 10⟩ [] "S" 0 100
    (by
      have hout : detect_outliers [(5, 100)] ⟨none, none, none, some 0, some 10⟩ [] "S" =
          [(0, 100)] := by
        norm_num [detect_outliers, get_validated_outliers, List.enum, List.enumFrom,
          List.filterMap]
      rw [hout]
      exact List.mem_singleton.mpr rfl)

/-- Claim C8: when the bounds are degenerate — lim_inf or lim_sup missing
or non-finite (none), or width at most 1e-6 — `detect_outliers` returns
the empty list whatever the series; and `compute_bounds` on the empty
sample yields the all-undefined bounds, on which `detect_outliers` is
likewise empty. -/
theorem degenerate_bounds_no_outliers
    (df : List (ℕ × ℚ)) (log : List AuditEntry) (st : String) (b : Bounds)
    (lp up k : ℚ)
    (hdeg : b.lim_inf = none ∨ b.lim_sup = none ∨
      ∃ li ls, b.lim_inf = some li ∧ b.lim_sup = some ls ∧ ls - li ≤ 1 / 1000000) :
    detect_outliers df b log st = [] ∧
    compute_bounds [] lp up k = ⟨none, none, none, none, none⟩ ∧
    detect_outliers df (compute_bounds [] lp up k) log st = [] := by
  have hcb : compute_bounds [] lp up k = ⟨none, none, none, none, none⟩ := by
    simp [compute_bounds]
  refine ⟨?_, hcb, ?_⟩
  · simp only [detect_outliers]
    by_cases hdf : df.isEmpty
    · rw [if_pos hdf]
    · rw [if_neg hdf]
      rcases hdeg with h | h | ⟨li, ls, hli, hls, hwid⟩
      · cases hs : b.lim_sup <;> simp [h, hs]
      · cases hi : b.lim_inf <;> simp [h, hi]
      · simp only [hli, hls]
        rw [if_pos hwid]
  · rw [hcb]
    simp [detect_outliers]

/-- Claim C8 witness: zero-width bounds on a wildly out-of-range value
still yield no outliers. -/
theorem degenerate_bounds_no_outliers_witness :
    detect_outliers [(0, 1000)] ⟨none, none, none, some 0, some 0⟩ [] "S" = [] ∧
    compute_bounds [] 0 0 0 = ⟨none, none, none, none, none⟩ ∧
    detect_outliers [(0, 1000)] (compute_bounds [] 0 0 0) [] "S" = [] :=
  degenerate_bounds_no_outliers [(0, 1000)] [] "S"
    ⟨none, none, none, some 0, some 0⟩ 0 0 0
    (Or.inr (Or.inr ⟨0, 0, rfl, rfl, by norm_num⟩))

end QC
